import Mathlib

/-!
Verification of the ADIF log parser (`LogParser5.py`, class `ADIFLogParser`).

The core logic of the program — the ADIF tokenizer / record assembler
(`parse_file` / `parse_record`), the confirmation predicate
(`is_record_confirmed`), the band sort (`sort_records_by_band`) and the
filtering engine (`filter_records`) — is shallowly embedded below.
Python strings are modelled as Lean `String` (char-list based); the
case-mapping, whitespace and digit predicates are modelled on the ASCII
range, which covers all data this program manipulates (ADIF tag names,
band labels, `Y`/`N` flags, callsigns).  Python dicts are modelled as
insertion-ordered association lists with overwrite-on-repeat semantics.
Python's stable `sorted`/`list.sort` are modelled with the stable
`List.insertionSort`: a stable sort under a total preorder is
extensionally unique, so this is a faithful model of CPython's Timsort.
-/

/-! ### ASCII character helpers (models of Python `str` primitives) -/

/-- ASCII model of Python `str.lower` applied to one character. -/
def asciiLower (c : Char) : Char :=
  if 'A' ≤ c ∧ c ≤ 'Z' then Char.ofNat (c.toNat + 32) else c

/-- ASCII model of Python `str.upper` applied to one character. -/
def asciiUpper (c : Char) : Char :=
  if 'a' ≤ c ∧ c ≤ 'z' then Char.ofNat (c.toNat - 32) else c

/-- Model of Python `str.lower`. -/
def pyLower (s : String) : String := ⟨s.data.map asciiLower⟩

/-- Model of Python `str.upper`. -/
def pyUpper (s : String) : String := ⟨s.data.map asciiUpper⟩

/-- The characters Python `str.strip()` and the regex class `\s` treat as
whitespace (ASCII range). -/
def isPySpace (c : Char) : Bool :=
  c == ' ' || c == '\t' || c == '\n' || c == '\r' ||
    c == Char.ofNat 11 || c == Char.ofNat 12

/-- Model of Python `str.strip()` on a character list. -/
def stripChars (l : List Char) : List Char :=
  ((l.dropWhile isPySpace).reverse.dropWhile isPySpace).reverse

/-- Substring test: model of Python's `pat in s`. -/
def strContains (s pat : String) : Bool := decide (pat.data <:+: s.data)

/-! ### Model of Python `int(...)` on strings -/

/-- After an initial digit: Python's integer literal grammar
`digit (["_"] digit)*`, accumulating the value. -/
def pyDigitsAux : Nat → List Char → Option Nat
  | acc, [] => some acc
  | acc, '_' :: cs =>
    match cs with
    | c :: cs' =>
      if c.isDigit then pyDigitsAux (acc * 10 + (c.toNat - 48)) cs' else none
    | [] => none
  | acc, c :: cs =>
    if c.isDigit then pyDigitsAux (acc * 10 + (c.toNat - 48)) cs else none

/-- A full digit-part per Python's `int` grammar (ASCII digits). -/
def pyDigits : List Char → Option Nat
  | [] => none
  | c :: cs => if c.isDigit then pyDigitsAux (c.toNat - 48) cs else none

/-- Model of Python `int(s)`: optional surrounding whitespace, optional
sign, then a digit-part; `none` models `ValueError`. -/
def pyInt (s : String) : Option Int :=
  match stripChars s.data with
  | '+' :: rest => (pyDigits rest).map (fun n => (n : Int))
  | '-' :: rest => (pyDigits rest).map (fun n => -(n : Int))
  | l => (pyDigits l).map (fun n => (n : Int))

/-- Left-to-right non-overlapping removal of `"cm"`: model of
`band.replace('cm', '')`. -/
def removeCm : List Char → List Char
  | [] => []
  | 'c' :: 'm' :: rest => removeCm rest
  | c :: rest => c :: removeCm rest

/-! ### Records -/

/-- A parsed ADIF record: Python dict modelled as an insertion-ordered
association list from (uppercased) field name to field value. -/
abbrev Record := List (String × String)

/-- Model of Python `record.get(k, dflt)`. -/
def pyGet (r : Record) (k dflt : String) : String :=
  match r.find? (fun p => p.1 == k) with
  | some p => p.2
  | none => dflt

/-- Raw lookup without a default (`record.get(k)` as an `Option`). -/
def pyGetOpt (r : Record) (k : String) : Option String :=
  (r.find? (fun p => p.1 == k)).map (fun p => p.2)

/-- Model of Python `record[k] = v` on a dict: overwrite in place if the
key is present, else append. -/
def dictInsert (r : Record) (k v : String) : Record :=
  if r.any (fun p => p.1 == k) then
    r.map (fun p => if p.1 == k then (k, v) else p)
  else r ++ [(k, v)]

/-! ### `ADIFLogParser.is_record_confirmed` (source lines 68-72) -/

/-- `is_record_confirmed`: confirmed by LoTW or paper QSL, exact
case-sensitive comparison against `"Y"`, missing flags defaulting to
`"N"`. -/
def is_record_confirmed (r : Record) : Bool :=
  pyGet r "LOTW_QSL_RCVD" "N" == "Y" || pyGet r "QSL_RCVD" "N" == "Y"

/-! ### `ADIFLogParser.sort_records_by_band` (source lines 74-89) -/

/-- `band_sort_key` (source lines 76-87).  The key is rational because the
`cm` branch divides by 100.  Note the source tests `'m' in band` *before*
`'cm' in band`; a `ValueError` anywhere in the `try` body yields 999. -/
def band_sort_key (r : Record) : Rat :=
  let band := pyLower (pyGet r "BAND" "")
  if strContains band "m" then
    match pyInt ⟨band.data.filter (fun c => !(c == 'm'))⟩ with
    | some n => (n : Rat)
    | none => 999
  else if strContains band "cm" then
    match pyInt ⟨removeCm band.data⟩ with
    | some n => (n : Rat) / 100
    | none => 999
  else 999

/-- The order `sorted(records, key=band_sort_key, reverse=True)` sorts by:
descending on the key, ties keeping their original relative order. -/
def bandDescLe (a b : Record) : Prop := band_sort_key b ≤ band_sort_key a

instance : DecidableRel bandDescLe := fun a b =>
  inferInstanceAs (Decidable (band_sort_key b ≤ band_sort_key a))

/-- `sort_records_by_band` (source line 89): Python's `sorted` with
`reverse=True` is a stable descending sort.  A stable sort for a total
preorder is extensionally unique, so the stable `insertionSort` is a
faithful model of CPython's stable Timsort. -/
def sort_records_by_band (records : List Record) : List Record :=
  List.insertionSort bandDescLe records

/-! ### `ADIFLogParser.filter_records` (source lines 91-161) -/

/-- Lexicographic code-point comparison on character lists: model of
Python string `<=`, used by `list.sort(key=...)`. -/
def lexLe : List Char → List Char → Bool
  | [], _ => true
  | _ :: _, [] => false
  | a :: as, b :: bs =>
    if a.toNat < b.toNat then true
    else if b.toNat < a.toNat then false
    else lexLe as bs

/-- The sort key of source line 113: `record.get('COUNTRY', '').upper()`. -/
def countryKey (r : Record) : List Char := (pyUpper (pyGet r "COUNTRY" "")).data

/-- Order used by `confirmed_records.sort(key=...)` (source line 113):
Python strings compare lexicographically by code point. -/
def countryLe (a b : Record) : Prop := lexLe (countryKey a) (countryKey b) = true

instance : DecidableRel countryLe := fun a b =>
  inferInstanceAs (Decidable (lexLe (countryKey a) (countryKey b) = true))

/-- The `seen_dxcc` deduplication loop of source lines 116-121: keep the
first record for each distinct non-empty `DXCC` value. -/
def seenDedup : List String → List Record → List Record
  | _, [] => []
  | seen, r :: rest =>
    let dxcc := pyGet r "DXCC" ""
    if dxcc ≠ "" ∧ ¬ dxcc ∈ seen then r :: seenDedup (dxcc :: seen) rest
    else seenDedup seen rest

/-- The `confirmed_countries` branch of `filter_records` (source lines
100-124): keep confirmed records, apply the band filter at this stage,
sort by uppercased `COUNTRY`, then keep one record per `DXCC`; this
branch returns early, skipping the general band filter. -/
def confirmed_countries (records : List Record) (band_filter : String) :
    List Record :=
  let confirmed_records := records.filter (fun r =>
    is_record_confirmed r &&
      (band_filter == "all" ||
        pyLower (pyGet r "BAND" "") == pyLower band_filter))
  seenDedup [] (List.insertionSort countryLe confirmed_records)

/-- The confirmed `(BAND, DXCC)` pair set of source lines 134-140, built
from the entire record collection. -/
def confirmed_band_dxcc (records : List Record) : List (String × String) :=
  records.filterMap (fun r =>
    if is_record_confirmed r then
      let band := pyGet r "BAND" ""
      let dxcc := pyGet r "DXCC" ""
      if band ≠ "" ∧ dxcc ≠ "" then some (band, dxcc) else none
    else none)

/-- The `unconfirmed_no_qsl` branch of `filter_records` (source lines
130-153): unconfirmed records whose `(BAND, DXCC)` pair has no confirmed
record, records with missing `BAND` or `DXCC` always included. -/
def unconfirmed_no_qsl (records : List Record) : List Record :=
  let pairs := confirmed_band_dxcc records
  records.filter (fun r =>
    !(is_record_confirmed r) &&
      (let band := pyGet r "BAND" ""
       let dxcc := pyGet r "DXCC" ""
       if band ≠ "" ∧ dxcc ≠ "" then decide (¬ (band, dxcc) ∈ pairs)
       else true))

/-- `filter_records` (source lines 91-161).  `records` stands for
`self.records`.  The `confirmed_countries` branch returns early before the
general band filter (source lines 124 and 158). -/
def filter_records (records : List Record)
    (filter_type band_filter : String) : List Record :=
  if filter_type = "confirmed_countries" then
    confirmed_countries records band_filter
  else
    let filtered :=
      if filter_type = "confirmed" then records.filter is_record_confirmed
      else if filter_type = "unconfirmed" then
        records.filter (fun r => !(is_record_confirmed r))
      else if filter_type = "unconfirmed_no_qsl" then
        unconfirmed_no_qsl records
      else records
    if band_filter = "all" then filtered
    else filtered.filter (fun r =>
      pyLower (pyGet r "BAND" "") == pyLower band_filter)

/-! ### `ADIFLogParser.parse_record` (source lines 43-66)

The field pattern is the regex
`<([^>:]+)(?::(\d+))?(?::[^>]*)?>\s*([^<]*)` searched with `re.findall`
and `re.IGNORECASE` (the flag affects no character class appearing in the
pattern).  The scanner below is the deterministic reading of that
backtracking regex:

* the tag name is the maximal nonempty run of characters other than `>`
  and `:` after a `<` (shrinking the greedy `[^>:]+` never helps, since a
  character inside the run satisfies none of `:`/`>`);
* the optional `:(\d+)` group participates only when a `:` followed by a
  digit run comes next *and* the remainder (`(?::[^>]*)?>`) can match:
  directly a `>`, or a `:` with some later `>`; otherwise the engine
  backtracks to not taking the group and `(?::[^>]*)?>` consumes up to
  the first `>`;
* the value is the run of characters up to (not including) the next `<`,
  with `\s*` first skipping leading whitespace.
-/

/-- Consume up to and including the first `>`; `none` if there is no
`>`.  This is `[^>]*>` of the regex: the greedy run stops at the first
`>`, which the pattern then consumes. -/
def splitAtGt : List Char → Option (List Char × List Char)
  | [] => none
  | c :: rest =>
    if c = '>' then some ([], rest)
    else
      match splitAtGt rest with
      | some (v, w) => some (c :: v, w)
      | none => none

/-- `int(field_length)` on the digit string captured by `(\d+)`. -/
def digitsToNat (ds : List Char) : Nat :=
  ds.foldl (fun acc c => acc * 10 + (c.toNat - 48)) 0

/-- Match `(?::(\d+))?(?::[^>]*)?>` after the tag name; returns the
captured length (if the digit group participates) and the remainder after
the closing `>`. -/
def afterName (r : List Char) : Option (Option Nat × List Char) :=
  match r with
  | [] => none
  | c :: t =>
    if c = '>' then some (none, t)
    else if c = ':' then
      let ds := t.takeWhile Char.isDigit
      if ds.isEmpty then
        match splitAtGt t with
        | some (_, w) => some (none, w)
        | none => none
      else
        match t.dropWhile Char.isDigit with
        | [] => none
        | c' :: u =>
          if c' = '>' then some (some (digitsToNat ds), u)
          else if c' = ':' then
            match splitAtGt u with
            | some (_, w) => some (some (digitsToNat ds), w)
            | none => none
          else
            match splitAtGt t with
            | some (_, w) => some (none, w)
            | none => none
    else none

/-- Match the whole field pattern immediately after a `<`: returns the
raw tag name, the optional captured length, the raw value (`\s*` skipped,
up to the next `<`) and the remainder of the chunk. -/
def matchTag (l : List Char) :
    Option (List Char × Option Nat × List Char × List Char) :=
  let name := l.takeWhile (fun c => !(c == '>') && !(c == ':'))
  if name.isEmpty then none
  else
    match afterName (l.dropWhile (fun c => !(c == '>') && !(c == ':'))) with
    | none => none
    | some (len, r2) =>
      let r3 := r2.dropWhile isPySpace
      some (name, len, r3.takeWhile (fun c => !(c == '<')),
        r3.dropWhile (fun c => !(c == '<')))

/-- The scanning loop of `re.findall`: at each position, emit the field
match starting there if any (continuing after its end), else advance one
character.  The `Nat` argument is fuel; since every step continues on a
strictly shorter list, `findFieldsGo l.length l` computes the unbounded
recursion (`findFieldsGo_fuel` below), while keeping the definition
structurally recursive and hence kernel-reducible. -/
def findFieldsGo : Nat → List Char → List (List Char × Option Nat × List Char)
  | 0, _ => []
  | _ + 1, [] => []
  | fuel + 1, c :: rest =>
    if c = '<' then
      match matchTag rest with
      | some (nm, len, v, rest') => (nm, len, v) :: findFieldsGo fuel rest'
      | none => findFieldsGo fuel rest
    else findFieldsGo fuel rest

/-- `re.findall(field_pattern, record_text, re.IGNORECASE)`: the list of
(raw name, optional length, raw value) matches, left to right. -/
def findFields (l : List Char) : List (List Char × Option Nat × List Char) :=
  findFieldsGo l.length l

/-- `parse_record` (source lines 43-66): run the field scanner over one
chunk, uppercase each tag name, strip the raw value, truncate it to the
declared length when one was captured, build the dict with
later-occurrence-overwrites semantics, and accept the record only if it
has a non-empty `CALL`. -/
def parse_record (record_text : List Char) : Option Record :=
  let record : Record := (findFields record_text).foldl
    (fun rec f =>
      let field_name : String := ⟨f.1.map asciiUpper⟩
      let v0 := stripChars f.2.2
      let field_value : String :=
        match f.2.1 with
        | some n => ⟨v0.take n⟩
        | none => ⟨v0⟩
      dictInsert rec field_name field_value) []
  if pyGet record "CALL" "" ≠ "" then some record else none

/-! ### `ADIFLogParser.parse_file` (source lines 22-41)

`parse_file` reads the file and processes its text; reading is I/O and is
out of the embedding, so the text-processing part (source lines 29-38) is
modelled as a function of the raw content, named `parse` as in the spec's
contract `parse(rawText) → sequence of Record`. -/

/-- The record separator `'<eor>'` of source line 29. -/
def eorMark : List Char := ['<', 'e', 'o', 'r', '>']

/-- `content.split('<eor>')`: split on each non-overlapping occurrence of
the *exact, lowercase* five-character marker, left to right. -/
def splitEor : List Char → List (List Char)
  | '<' :: 'e' :: 'o' :: 'r' :: '>' :: rest => [] :: splitEor rest
  | [] => [[]]
  | c :: rest =>
    match splitEor rest with
    | [] => [[c]]
    | p :: ps => (c :: p) :: ps

/-- `parse` (source lines 29-38): split the raw text on `<eor>`, skip
chunks that are empty after stripping, parse each remaining chunk, and
keep the chunks that produced a record. -/
def parse (content : String) : List Record :=
  (splitEor content.data).filterMap (fun record_text =>
    if (stripChars record_text).isEmpty then none
    else parse_record record_text)

/-! ### Sample data used to instantiate the universally quantified
theorems at concrete inputs -/

/-- A confirmed 20m contact with the USA. -/
def recA1 : Record :=
  [("CALL", "A1"), ("BAND", "20m"), ("DXCC", "291"), ("COUNTRY", "USA"),
   ("QSL_RCVD", "Y")]

/-- An unconfirmed 40m contact with the USA. -/
def recB2 : Record :=
  [("CALL", "B2"), ("BAND", "40m"), ("DXCC", "291"), ("COUNTRY", "USA")]

/-- An unconfirmed 20m contact with the USA (same band and DXCC as the
confirmed `recA1`). -/
def recC3 : Record :=
  [("CALL", "C3"), ("BAND", "20m"), ("DXCC", "291"), ("COUNTRY", "USA")]

/-- A LoTW-confirmed 70cm contact with Canada. -/
def recD4 : Record :=
  [("CALL", "D4"), ("BAND", "70cm"), ("DXCC", "1"), ("COUNTRY", "Canada"),
   ("LOTW_QSL_RCVD", "Y")]

/-- An unconfirmed contact with Canada with no `BAND` field. -/
def recE5 : Record :=
  [("CALL", "E5"), ("DXCC", "1"), ("COUNTRY", "Canada")]

/-- A five-record sample log. -/
def sampleRecords : List Record := [recA1, recB2, recC3, recD4, recE5]

/-- The worked scenario input of the specification's testable properties. -/
def sampleAdi : String :=
  "<call:4>W0RLD<band:3>20m<qsl_rcvd:1>Y<eor><call:4>N0TST<band:3>40m<eor>"

/-! ### Infrastructure lemmas -/

/-- Totality of the lexicographic comparison. -/
theorem lexLe_total : ∀ (a b : List Char), lexLe a b = true ∨ lexLe b a = true
  | [], _ => Or.inl rfl
  | _ :: _, [] => Or.inr rfl
  | a :: as, b :: bs => by
    by_cases h1 : a.toNat < b.toNat
    · left; simp [lexLe, h1]
    · by_cases h2 : b.toNat < a.toNat
      · right; simp [lexLe, h1, h2]
      · rcases lexLe_total as bs with h | h
        · left; simp [lexLe, h1, h2, h]
        · right; simp [lexLe, h1, h2, h]

/-- Transitivity of the lexicographic comparison. -/
theorem lexLe_trans : ∀ {a b c : List Char},
    lexLe a b = true → lexLe b c = true → lexLe a c = true
  | [], _, _, _, _ => rfl
  | _ :: _, [], _, h1, _ => by simp [lexLe] at h1
  | _ :: _, _ :: _, [], _, h2 => by simp [lexLe] at h2
  | a :: as, b :: bs, c :: cs, h1, h2 => by
    simp only [lexLe] at h1 h2 ⊢
    by_cases hab : a.toNat < b.toNat
    · rw [if_pos hab] at h1
      by_cases hbc : b.toNat < c.toNat
      · rw [if_pos (show a.toNat < c.toNat by omega)]
      · rw [if_neg hbc] at h2
        by_cases hcb : c.toNat < b.toNat
        · rw [if_pos hcb] at h2; exact absurd h2 (by simp)
        · rw [if_pos (show a.toNat < c.toNat by omega)]
    · rw [if_neg hab] at h1
      by_cases hba : b.toNat < a.toNat
      · rw [if_pos hba] at h1; exact absurd h1 (by simp)
      · rw [if_neg hba] at h1
        by_cases hbc : b.toNat < c.toNat
        · rw [if_pos (show a.toNat < c.toNat by omega)]
        · rw [if_neg hbc] at h2
          by_cases hcb : c.toNat < b.toNat
          · rw [if_pos hcb] at h2; exact absurd h2 (by simp)
          · rw [if_neg hcb] at h2
            rw [if_neg (show ¬ a.toNat < c.toNat by omega),
              if_neg (show ¬ c.toNat < a.toNat by omega)]
            exact lexLe_trans h1 h2

theorem splitAtGt_length {l : List Char} :
    ∀ {v w : List Char}, splitAtGt l = some (v, w) → w.length < l.length := by
  induction l with
  | nil => intro v w h; simp [splitAtGt] at h
  | cons c rest ih =>
    intro v w h
    by_cases hc : c = '>'
    · rw [splitAtGt, if_pos hc] at h
      cases h
      simp
    · rw [splitAtGt, if_neg hc] at h
      cases h2 : splitAtGt rest with
      | none => rw [h2] at h; cases h
      | some p =>
        obtain ⟨v', w'⟩ := p
        rw [h2] at h
        cases h
        exact Nat.lt_succ_of_lt (ih h2)

theorem afterName_length {r : List Char} {len : Option Nat} {w : List Char}
    (h : afterName r = some (len, w)) : w.length < r.length := by
  match r with
  | [] => simp [afterName] at h
  | c :: t =>
    rw [afterName] at h
    by_cases hc : c = '>'
    · rw [if_pos hc] at h
      cases h
      simp
    · rw [if_neg hc] at h
      by_cases hc2 : c = ':'
      · rw [if_pos hc2] at h
        simp only at h
        by_cases hds : (t.takeWhile Char.isDigit).isEmpty
        · rw [if_pos hds] at h
          cases h2 : splitAtGt t with
          | none => rw [h2] at h; cases h
          | some p =>
            obtain ⟨v', w'⟩ := p
            rw [h2] at h
            cases h
            exact Nat.lt_succ_of_lt (splitAtGt_length h2)
        · rw [if_neg hds] at h
          have hdw : (t.dropWhile Char.isDigit).length ≤ t.length :=
            (List.dropWhile_sublist _).length_le
          cases h3 : t.dropWhile Char.isDigit with
          | nil => rw [h3] at h; cases h
          | cons c' u =>
            rw [h3] at h
            dsimp only at h
            rw [h3] at hdw
            by_cases hgt : c' = '>'
            · rw [if_pos hgt] at h
              cases h
              simp only [List.length_cons] at hdw
              simp only [List.length_cons]
              omega
            · rw [if_neg hgt] at h
              by_cases hcl : c' = ':'
              · rw [if_pos hcl] at h
                cases h4 : splitAtGt u with
                | none => rw [h4] at h; cases h
                | some p =>
                  obtain ⟨v', w'⟩ := p
                  rw [h4] at h
                  cases h
                  have := splitAtGt_length h4
                  simp only [List.length_cons] at hdw
                  simp only [List.length_cons]
                  omega
              · rw [if_neg hcl] at h
                cases h5 : splitAtGt t with
                | none => rw [h5] at h; cases h
                | some p =>
                  obtain ⟨v', w'⟩ := p
                  rw [h5] at h
                  cases h
                  exact Nat.lt_succ_of_lt (splitAtGt_length h5)
      · rw [if_neg hc2] at h
        cases h

theorem matchTag_length {l : List Char} {nm : List Char} {len : Option Nat}
    {v rest : List Char} (h : matchTag l = some (nm, len, v, rest)) :
    rest.length < l.length := by
  rw [matchTag] at h
  by_cases hn : (l.takeWhile (fun c => !(c == '>') && !(c == ':'))).isEmpty
  · rw [if_pos hn] at h; cases h
  · rw [if_neg hn] at h
    cases h2 : afterName (l.dropWhile (fun c => !(c == '>') && !(c == ':'))) with
    | none => rw [h2] at h; cases h
    | some p =>
      obtain ⟨len', r2⟩ := p
      rw [h2] at h
      cases h
      have l1 : r2.length <
          (l.dropWhile (fun c => !(c == '>') && !(c == ':'))).length :=
        afterName_length h2
      have l2 : (l.dropWhile (fun c => !(c == '>') && !(c == ':'))).length ≤
          l.length := (List.dropWhile_sublist _).length_le
      have l3 : (r2.dropWhile isPySpace).length ≤ r2.length :=
        (List.dropWhile_sublist _).length_le
      have l4 : ((r2.dropWhile isPySpace).dropWhile
          (fun c => !(c == '<'))).length ≤ (r2.dropWhile isPySpace).length :=
        (List.dropWhile_sublist _).length_le
      omega

theorem findFieldsGo_nil : ∀ (fuel : Nat), findFieldsGo fuel [] = [] := by
  intro fuel
  cases fuel <;> rfl

/-- Any fuel at least the list length computes the same result: the fuel
in `findFields` is enough, so `findFields` is the unbounded scanning
recursion. -/
theorem findFieldsGo_fuel : ∀ (f1 : Nat) (l : List Char) (f2 : Nat),
    l.length ≤ f1 → l.length ≤ f2 → findFieldsGo f1 l = findFieldsGo f2 l := by
  intro f1
  induction f1 with
  | zero =>
    intro l f2 h1 _
    have : l = [] := List.length_eq_zero.mp (Nat.le_zero.mp h1)
    subst this
    rw [findFieldsGo_nil, findFieldsGo_nil]
  | succ f ih =>
    intro l f2 h1 h2
    cases l with
    | nil => rw [findFieldsGo_nil, findFieldsGo_nil]
    | cons c rest =>
      cases f2 with
      | zero => simp at h2
      | succ f' =>
        simp only [List.length_cons] at h1 h2
        rw [findFieldsGo, findFieldsGo]
        by_cases hc : c = '<'
        · rw [if_pos hc, if_pos hc]
          cases hm : matchTag rest with
          | none => exact ih rest f' (by omega) (by omega)
          | some p =>
            obtain ⟨nm, len, v, rest'⟩ := p
            have := matchTag_length hm
            dsimp only
            rw [ih rest' f' (by omega) (by omega)]
        · rw [if_neg hc, if_neg hc]
          exact ih rest f' (by omega) (by omega)

theorem splitEor_ne_nil : ∀ (l : List Char), splitEor l ≠ [] := by
  intro l
  induction l using splitEor.induct with
  | case1 rest ih => simp [splitEor]
  | case2 => simp [splitEor]
  | case3 c rest h1 hrest => simp [splitEor, hrest]
  | case4 c rest h1 p ps hps => simp [splitEor, hps]

/-- A text in which the lowercase `<eor>` marker does not occur is a
single chunk. -/
theorem splitEor_no_sep : ∀ {l : List Char}, ¬ eorMark <:+: l → splitEor l = [l] := by
  intro l
  induction l using splitEor.induct with
  | case1 rest ih =>
    intro h
    exact absurd ⟨[], rest, rfl⟩ h
  | case2 => intro _; rfl
  | case3 c rest h1 hrest =>
    intro _
    exact absurd hrest (splitEor_ne_nil rest)
  | case4 c rest h1 p ps hps ih =>
    intro h
    have hr : ¬ eorMark <:+: rest := fun hi => h (List.infix_cons hi)
    have hone := ih hr
    rw [hone] at hps
    cases hps
    simp [splitEor, hone]

/-- `record.get(k, 'N') == 'Y'` holds exactly when the key is present
with value exactly `"Y"`. -/
theorem pyGet_default_N_eq_Y (r : Record) (k : String) :
    pyGet r k "N" = "Y" ↔ pyGetOpt r k = some "Y" := by
  rw [pyGet, pyGetOpt]
  cases h : r.find? (fun p => p.1 == k) with
  | none => simp
  | some p => simp

/-- Membership in the confirmed `(BAND, DXCC)` pair list. -/
theorem mem_confirmed_band_dxcc {records : List Record} {x y : String} :
    (x, y) ∈ confirmed_band_dxcc records ↔
      ∃ c ∈ records, is_record_confirmed c = true ∧
        pyGet c "BAND" "" = x ∧ pyGet c "DXCC" "" = y ∧ x ≠ "" ∧ y ≠ "" := by
  rw [confirmed_band_dxcc, List.mem_filterMap]
  constructor
  · rintro ⟨c, hc, hf⟩
    by_cases h1 : is_record_confirmed c = true
    · rw [if_pos h1] at hf
      simp only at hf
      by_cases h2 : pyGet c "BAND" "" ≠ "" ∧ pyGet c "DXCC" "" ≠ ""
      · rw [if_pos h2] at hf
        cases hf
        exact ⟨c, hc, h1, rfl, rfl, h2.1, h2.2⟩
      · rw [if_neg h2] at hf
        cases hf
    · rw [if_neg h1] at hf
      cases hf
  · rintro ⟨c, hc, h1, hb, hd, hx, hy⟩
    refine ⟨c, hc, ?_⟩
    rw [if_pos h1]
    simp only
    rw [if_pos ⟨hb ▸ hx, hd ▸ hy⟩, hb, hd]

theorem seenDedup_nil (seen : List String) : seenDedup seen [] = [] := rfl

/-- `seenDedup` returns a sublist of its input. -/
theorem seenDedup_sublist : ∀ (seen : List String) (l : List Record),
    List.Sublist (seenDedup seen l) l := by
  intro seen l
  induction l generalizing seen with
  | nil => simp [seenDedup_nil]
  | cons r rest ih =>
    simp only [seenDedup]
    by_cases h : pyGet r "DXCC" "" ≠ "" ∧ ¬ pyGet r "DXCC" "" ∈ seen
    · rw [if_pos h]
      exact (ih _).cons₂ r
    · rw [if_neg h]
      exact (ih _).cons r

/-- The `DXCC` values of `seenDedup`'s output: pairwise distinct,
non-empty, and disjoint from the `seen` accumulator. -/
theorem seenDedup_spec : ∀ (seen : List String) (l : List Record),
    ((seenDedup seen l).map (fun r => pyGet r "DXCC" "")).Nodup ∧
      ∀ s ∈ (seenDedup seen l).map (fun r => pyGet r "DXCC" ""),
        ¬ s ∈ seen ∧ s ≠ "" := by
  intro seen l
  induction l generalizing seen with
  | nil => simp [seenDedup_nil]
  | cons r rest ih =>
    simp only [seenDedup]
    by_cases h : pyGet r "DXCC" "" ≠ "" ∧ ¬ pyGet r "DXCC" "" ∈ seen
    · rw [if_pos h]
      obtain ⟨ihn, ihm⟩ := ih (pyGet r "DXCC" "" :: seen)
      constructor
      · rw [List.map_cons, List.nodup_cons]
        refine ⟨fun hmem => ?_, ihn⟩
        exact (ihm _ hmem).1 (List.mem_cons_self _ _)
      · rw [List.map_cons]
        intro s hsm
        rcases List.mem_cons.mp hsm with heq | hs
        · subst heq
          exact ⟨h.2, h.1⟩
        · obtain ⟨hs1, hs2⟩ := ihm s hs
          exact ⟨fun hmem => hs1 (List.mem_cons_of_mem _ hmem), hs2⟩
    · rw [if_neg h]
      exact ih seen

/-- Completeness of `seenDedup`: a non-empty `DXCC` value occurring in
the input and not yet seen occurs among the output's `DXCC` values. -/
theorem seenDedup_complete : ∀ (seen : List String) (l : List Record)
    (r : Record), r ∈ l → pyGet r "DXCC" "" ≠ "" →
    ¬ pyGet r "DXCC" "" ∈ seen →
    pyGet r "DXCC" "" ∈ (seenDedup seen l).map (fun x => pyGet x "DXCC" "") := by
  intro seen l
  induction l generalizing seen with
  | nil => intro r h; simp at h
  | cons x rest ih =>
    intro r hr hne hns
    simp only [seenDedup]
    by_cases h : pyGet x "DXCC" "" ≠ "" ∧ ¬ pyGet x "DXCC" "" ∈ seen
    · rw [if_pos h, List.map_cons]
      rcases List.mem_cons.mp hr with heq | hr
      · subst heq
        exact List.mem_cons_self _ _
      · by_cases he : pyGet r "DXCC" "" = pyGet x "DXCC" ""
        · rw [he]; exact List.mem_cons_self _ _
        · refine List.mem_cons_of_mem _ ?_
          exact ih _ r hr hne (by
            intro hmem
            rcases List.mem_cons.mp hmem with h1 | h1
            · exact he h1
            · exact hns h1)
    · rw [if_neg h]
      rcases List.mem_cons.mp hr with heq | hr
      · subst heq
        exact absurd ⟨hne, hns⟩ h
      · exact ih seen r hr hne hns

/-- First-seen-wins: a record kept by `seenDedup` is the *first* element
of the scanned list bearing its `DXCC` value. -/
theorem seenDedup_first : ∀ (seen : List String) (l : List Record)
    (r : Record), r ∈ seenDedup seen l →
    l.find? (fun x => pyGet x "DXCC" "" == pyGet r "DXCC" "") = some r := by
  intro seen l
  induction l generalizing seen with
  | nil =>
    intro r h
    rw [seenDedup_nil] at h
    cases h
  | cons x rest ih =>
    intro r hr
    simp only [seenDedup] at hr
    by_cases h : pyGet x "DXCC" "" ≠ "" ∧ ¬ pyGet x "DXCC" "" ∈ seen
    · rw [if_pos h] at hr
      rcases List.mem_cons.mp hr with heq | hr'
      · subst heq
        exact List.find?_cons_of_pos _ (by simp)
      · have hnot := ((seenDedup_spec (pyGet x "DXCC" "" :: seen) rest).2
          (pyGet r "DXCC" "") (List.mem_map_of_mem _ hr')).1
        have hne : pyGet x "DXCC" "" ≠ pyGet r "DXCC" "" := by
          intro he
          exact hnot (he ▸ List.mem_cons_self _ _)
        rw [List.find?_cons_of_neg _ (by simpa using hne)]
        exact ih (pyGet x "DXCC" "" :: seen) r hr'
    · rw [if_neg h] at hr
      have hmem := (seenDedup_spec seen rest).2 (pyGet r "DXCC" "")
        (List.mem_map_of_mem _ hr)
      have hne : pyGet x "DXCC" "" ≠ pyGet r "DXCC" "" := by
        intro he
        rcases not_and_or.mp h with h1 | h1
        · exact hmem.2 (he ▸ not_not.mp h1)
        · exact hmem.1 (he ▸ not_not.mp h1)
      rw [List.find?_cons_of_neg _ (by simpa using hne)]
      exact ih seen r hr

/-- A chunk is accepted by `parse_record` only with a non-empty `CALL`. -/
theorem parse_record_call {t : List Char} {r : Record}
    (h : parse_record t = some r) : pyGet r "CALL" "" ≠ "" := by
  rw [parse_record] at h
  dsimp only at h
  split at h
  · next hcond =>
    cases h
    exact hcond
  · cases h

/-- Membership characterization of the `unconfirmed_no_qsl` selection. -/
theorem mem_unconfirmed_no_qsl {records : List Record} {r : Record} :
    r ∈ unconfirmed_no_qsl records ↔
      r ∈ records ∧ is_record_confirmed r = false ∧
        (pyGet r "BAND" "" = "" ∨ pyGet r "DXCC" "" = "" ∨
          ¬ (pyGet r "BAND" "", pyGet r "DXCC" "") ∈ confirmed_band_dxcc records) := by
  rw [unconfirmed_no_qsl]
  dsimp only
  rw [List.mem_filter, Bool.and_eq_true, Bool.not_eq_true']
  constructor
  · rintro ⟨hm, hu, hb⟩
    refine ⟨hm, hu, ?_⟩
    by_cases h : pyGet r "BAND" "" ≠ "" ∧ pyGet r "DXCC" "" ≠ ""
    · rw [if_pos h] at hb
      exact Or.inr (Or.inr (of_decide_eq_true hb))
    · rcases not_and_or.mp h with h1 | h1
      · exact Or.inl (not_not.mp h1)
      · exact Or.inr (Or.inl (not_not.mp h1))
  · rintro ⟨hm, hu, hd⟩
    refine ⟨hm, hu, ?_⟩
    by_cases h : pyGet r "BAND" "" ≠ "" ∧ pyGet r "DXCC" "" ≠ ""
    · rw [if_pos h]
      rcases hd with h1 | h1 | h1
      · exact absurd h1 h.1
      · exact absurd h1 h.2
      · exact decide_eq_true h1
    · rw [if_neg h]

/-! ### The claims -/

/-- C1: the claim states that a band text containing `"cm"` receives the
numeric key prefix/100 (0.7 for 70cm) and therefore sorts last among
`["10m","40m","6m","70cm"]` descending.  The code disagrees: the branch
`'m' in band` is tested first and also matches `"70cm"`, `int("70c")`
raises `ValueError`, the key becomes 999, and 70cm sorts FIRST.  This
theorem evaluates the embedded code at that failing input, exhibiting the
divergence from both the claim and the code's own comment
"Convert cm to m equivalent" (source line 83, dead code). -/
theorem C1_cm_band_key_eval :
    band_sort_key [("BAND", "70cm")] = 999 ∧
      (sort_records_by_band
          [[("BAND", "10m")], [("BAND", "40m")],
           [("BAND", "6m")], [("BAND", "70cm")]]).map
        (fun r => pyGet r "BAND" "") = ["70cm", "40m", "10m", "6m"] := by
  constructor
  · decide
  · decide

/-- C2 counterexample: an input that contains no `<eor>` marker in any
letter case, yet `parse` returns a non-empty record sequence — refuting
the claim that such inputs always parse to an empty sequence. -/
theorem C2_counterexample :
    ¬ eorMark <:+: "<call:5>W0RLD".data.map asciiLower ∧
      parse "<call:5>W0RLD" ≠ [] := by
  constructor
  · decide
  · decide

/-- C2 amended: for raw input with no `<eor>` marker in any letter case,
the whole text is a single candidate chunk: `parse` returns the empty
sequence iff the text is whitespace-only or the chunk yields no record
(no non-empty `CALL`); otherwise it returns that single record. -/
theorem C2_no_eor_single_chunk (content : String)
    (h : ¬ eorMark <:+: content.data.map asciiLower) :
    parse content =
      if (stripChars content.data).isEmpty then []
      else (parse_record content.data).toList := by
  have h' : ¬ eorMark <:+: content.data := by
    intro hi
    have h2 := List.IsInfix.map asciiLower hi
    have h3 : eorMark.map asciiLower = eorMark := by decide
    rw [h3] at h2
    exact h h2
  rw [parse, splitEor_no_sep h']
  by_cases hs : (stripChars content.data).isEmpty
  · rw [if_pos hs]
    have hs' : stripChars content.data = [] := by simpa using hs
    simp [List.filterMap_cons, hs']
  · rw [if_neg hs]
    simp only [List.filterMap_cons, hs, if_neg]
    cases parse_record content.data <;> simp

theorem C2_no_eor_single_chunk_witness :
    parse "<call:5>W0RLD" =
      if (stripChars "<call:5>W0RLD".data).isEmpty then []
      else (parse_record "<call:5>W0RLD".data).toList :=
  C2_no_eor_single_chunk "<call:5>W0RLD" (by decide)

/-- C3: the claim states the `<eor>` split is case-insensitive.  The code
splits with `content.split('<eor>')`, which is case-sensitive: in the
first input below, `<EOR>` does not terminate a chunk — the regex instead
matches it as a field tag `EOR` and the two contacts collapse into one
record whose `CALL` is overwritten to `"BBBBB"`.  With lowercase markers
the same text parses into two records, as the claim expects. -/
theorem C3_eor_case_sensitive_eval :
    (parse "<call:5>AAAAA<EOR><call:5>BBBBB<eor>").map
        (fun r => pyGet r "CALL" "") = ["BBBBB"] ∧
      (parse "<call:5>AAAAA<eor><call:5>BBBBB<eor>").map
        (fun r => pyGet r "CALL" "") = ["AAAAA", "BBBBB"] := by
  constructor
  · decide
  · decide

/-- C4: a record is confirmed iff its `LOTW_QSL_RCVD` field is present
with value exactly `"Y"`, or its `QSL_RCVD` field is present with value
exactly `"Y"`; the comparison is case-sensitive and a missing flag
(defaulting to `"N"`) never confirms. -/
theorem C4_is_confirmed_iff (r : Record) :
    is_record_confirmed r = true ↔
      (pyGetOpt r "LOTW_QSL_RCVD" = some "Y" ∨
        pyGetOpt r "QSL_RCVD" = some "Y") := by
  rw [is_record_confirmed, Bool.or_eq_true, beq_iff_eq, beq_iff_eq,
    pyGet_default_N_eq_Y, pyGet_default_N_eq_Y]

/-- C5: `filter(records, "confirmed", "all")` and
`filter(records, "unconfirmed", "all")` partition the record collection:
every stored record belongs to exactly one of the two results. -/
theorem C5_confirmed_unconfirmed_partition (records : List Record) (r : Record) :
    (r ∈ records ↔ (r ∈ filter_records records "confirmed" "all" ∨
      r ∈ filter_records records "unconfirmed" "all")) ∧
    ¬ (r ∈ filter_records records "confirmed" "all" ∧
      r ∈ filter_records records "unconfirmed" "all") := by
  have h1 : filter_records records "confirmed" "all" =
      records.filter is_record_confirmed := rfl
  have h2 : filter_records records "unconfirmed" "all" =
      records.filter (fun x => !(is_record_confirmed x)) := rfl
  rw [h1, h2]
  constructor
  · constructor
    · intro hm
      by_cases hc : is_record_confirmed r
      · exact Or.inl (List.mem_filter.mpr ⟨hm, hc⟩)
      · exact Or.inr (List.mem_filter.mpr ⟨hm, by simpa using hc⟩)
    · rintro (hm | hm)
      · exact (List.mem_filter.mp hm).1
      · exact (List.mem_filter.mp hm).1
  · rintro ⟨hc, hu⟩
    have hc2 := (List.mem_filter.mp hc).2
    have hu2 := (List.mem_filter.mp hu).2
    rw [hc2] at hu2
    cases hu2

theorem C5_confirmed_unconfirmed_partition_witness :
    (recA1 ∈ sampleRecords ↔
      (recA1 ∈ filter_records sampleRecords "confirmed" "all" ∨
        recA1 ∈ filter_records sampleRecords "unconfirmed" "all")) ∧
    ¬ (recA1 ∈ filter_records sampleRecords "confirmed" "all" ∧
      recA1 ∈ filter_records sampleRecords "unconfirmed" "all") :=
  C5_confirmed_unconfirmed_partition sampleRecords recA1

/-- C8: every record produced by `parse` has a non-empty `CALL` field
(chunks without one are silently discarded), and
`filter(records, "all", "all")` returns the stored records unchanged, in
their original order. -/
theorem C8_parse_call_nonempty_and_all_id (content : String)
    (records : List Record) :
    (∀ r ∈ parse content, pyGet r "CALL" "" ≠ "") ∧
      filter_records records "all" "all" = records := by
  refine ⟨?_, rfl⟩
  intro r hr
  rw [parse] at hr
  obtain ⟨chunk, _, hf⟩ := List.mem_filterMap.mp hr
  by_cases hs : (stripChars chunk).isEmpty
  · rw [if_pos hs] at hf
    cases hf
  · rw [if_neg hs] at hf
    exact parse_record_call hf

theorem C8_parse_call_nonempty_and_all_id_witness :
    pyGet [("CALL", "W0RL"), ("BAND", "20m"), ("QSL_RCVD", "Y")] "CALL" "" ≠ "" ∧
      filter_records sampleRecords "all" "all" = sampleRecords :=
  ⟨(C8_parse_call_nonempty_and_all_id sampleAdi sampleRecords).1
      [("CALL", "W0RL"), ("BAND", "20m"), ("QSL_RCVD", "Y")] (by decide),
    (C8_parse_call_nonempty_and_all_id sampleAdi sampleRecords).2⟩

/-- C9: `sort_records_by_band` returns a permutation of its input (the
input collection itself is untouched: the embedding of `sorted` is a pure
function), ordered descending by the numeric band key, and records with
equal keys keep their original relative order (stability). -/
theorem C9_sort_by_band_spec (records : List Record) :
    List.Perm (sort_records_by_band records) records ∧
    (sort_records_by_band records).Pairwise
      (fun a b => band_sort_key b ≤ band_sort_key a) ∧
    (∀ a b : Record, band_sort_key a = band_sort_key b →
      List.Sublist [a, b] records →
      List.Sublist [a, b] (sort_records_by_band records)) := by
  haveI : IsTotal Record bandDescLe := ⟨fun a b => le_total _ _⟩
  haveI : IsTrans Record bandDescLe := ⟨fun _ _ _ h1 h2 => le_trans h2 h1⟩
  refine ⟨List.perm_insertionSort _ _, ?_, ?_⟩
  · exact List.sorted_insertionSort bandDescLe records
  · intro a b hk hsub
    exact List.pair_sublist_insertionSort (le_of_eq hk.symm) hsub

theorem C9_sort_by_band_spec_witness :
    List.Perm (sort_records_by_band sampleRecords) sampleRecords ∧
      List.Sublist [recA1, recC3] (sort_records_by_band sampleRecords) :=
  ⟨(C9_sort_by_band_spec sampleRecords).1,
    (C9_sort_by_band_spec sampleRecords).2.2 recA1 recC3 (by decide) (by decide)⟩

/-- C10: any `filter_type` other than the four named kinds falls through
to the `else` branch and behaves exactly like `"all"`: all stored records
are returned, restricted only by the band filter. -/
theorem C10_unknown_filter_type_is_all (records : List Record)
    (ft b : String) (h1 : ft ≠ "confirmed") (h2 : ft ≠ "confirmed_countries")
    (h3 : ft ≠ "unconfirmed") (h4 : ft ≠ "unconfirmed_no_qsl") :
    filter_records records ft b = filter_records records "all" b := by
  rw [filter_records, filter_records,
    if_neg h2, if_neg (by decide : ¬ ("all" : String) = "confirmed_countries")]
  simp only [if_neg h1, if_neg h3, if_neg h4,
    if_neg (by decide : ¬ ("all" : String) = "confirmed"),
    if_neg (by decide : ¬ ("all" : String) = "unconfirmed"),
    if_neg (by decide : ¬ ("all" : String) = "unconfirmed_no_qsl")]

theorem C10_unknown_filter_type_is_all_witness :
    filter_records sampleRecords "bogus" "40m" =
      filter_records sampleRecords "all" "40m" :=
  C10_unknown_filter_type_is_all sampleRecords "bogus" "40m"
    (by decide) (by decide) (by decide) (by decide)

/-- C6: `confirmed_countries` keeps confirmed records (band-filtered at
this stage by case-insensitive `BAND` equality when the band filter is
not `"all"`), sorts them ascending by the uppercased `COUNTRY` field,
and keeps exactly one record — the first after that sort — per distinct
non-empty `DXCC`: the output's `DXCC` values are pairwise distinct and
non-empty, the output is sorted by the country key, every output record
is a stored confirmed record matching the band filter, every distinct
non-empty `DXCC` among the surviving records is represented, and each
output record is the FIRST record of the country-sorted surviving list
bearing its `DXCC` value (first-seen-wins: `find?` on that list with the
record's `DXCC` returns the record itself). -/
theorem C6_confirmed_countries_spec (records : List Record) (b : String) :
    ((filter_records records "confirmed_countries" b).map
        (fun r => pyGet r "DXCC" "")).Nodup ∧
    (filter_records records "confirmed_countries" b).Pairwise countryLe ∧
    (∀ r ∈ filter_records records "confirmed_countries" b,
      r ∈ records ∧ is_record_confirmed r = true ∧ pyGet r "DXCC" "" ≠ "" ∧
        (b ≠ "all" → pyLower (pyGet r "BAND" "") = pyLower b)) ∧
    (∀ r ∈ records, is_record_confirmed r = true → pyGet r "DXCC" "" ≠ "" →
      (b = "all" ∨ pyLower (pyGet r "BAND" "") = pyLower b) →
      pyGet r "DXCC" "" ∈ (filter_records records "confirmed_countries" b).map
        (fun x => pyGet x "DXCC" "")) ∧
    (∀ r ∈ filter_records records "confirmed_countries" b,
      (List.insertionSort countryLe (records.filter (fun x =>
        is_record_confirmed x &&
          (b == "all" || pyLower (pyGet x "BAND" "") == pyLower b)))).find?
        (fun x => pyGet x "DXCC" "" == pyGet r "DXCC" "") = some r) := by
  haveI : IsTotal Record countryLe := ⟨fun x y => lexLe_total _ _⟩
  haveI : IsTrans Record countryLe := ⟨fun _ _ _ hxy hyz => lexLe_trans hxy hyz⟩
  have heq : filter_records records "confirmed_countries" b =
      seenDedup [] (List.insertionSort countryLe (records.filter (fun r =>
        is_record_confirmed r &&
          (b == "all" || pyLower (pyGet r "BAND" "") == pyLower b)))) := rfl
  rw [heq]
  refine ⟨(seenDedup_spec [] _).1, ?_, ?_, ?_, ?_⟩
  · exact List.Pairwise.sublist (seenDedup_sublist [] _)
      (List.sorted_insertionSort countryLe _)
  · intro r hr
    have hrS := (seenDedup_sublist [] _).subset hr
    have hrF := (List.mem_insertionSort countryLe).mp hrS
    obtain ⟨hmem, hpred⟩ := List.mem_filter.mp hrF
    rw [Bool.and_eq_true, Bool.or_eq_true] at hpred
    obtain ⟨hconf, hband⟩ := hpred
    refine ⟨hmem, hconf, ?_, ?_⟩
    · exact ((seenDedup_spec [] _).2 (pyGet r "DXCC" "")
        (List.mem_map_of_mem _ hr)).2
    · intro hb
      rcases hband with h | h
      · rw [beq_iff_eq] at h
        exact absurd h hb
      · rw [beq_iff_eq] at h
        exact h
  · intro r hmem hconf hdx hband
    have hrF : r ∈ records.filter (fun x =>
        is_record_confirmed x &&
          (b == "all" || pyLower (pyGet x "BAND" "") == pyLower b)) := by
      refine List.mem_filter.mpr ⟨hmem, ?_⟩
      rw [Bool.and_eq_true, Bool.or_eq_true]
      refine ⟨hconf, ?_⟩
      rcases hband with h | h
      · exact Or.inl (by rw [beq_iff_eq]; exact h)
      · exact Or.inr (by rw [beq_iff_eq]; exact h)
    have hrS := (List.mem_insertionSort countryLe).mpr hrF
    exact seenDedup_complete [] _ r hrS hdx (by simp)
  · intro r hr
    exact seenDedup_first [] _ r hr

theorem C6_confirmed_countries_spec_witness :
    recA1 ∈ sampleRecords ∧ is_record_confirmed recA1 = true ∧
      pyGet recA1 "DXCC" "" ≠ "" ∧
      pyLower (pyGet recA1 "BAND" "") = pyLower "20m" ∧
      (List.insertionSort countryLe (sampleRecords.filter (fun x =>
        is_record_confirmed x &&
          (("20m" : String) == "all" ||
            pyLower (pyGet x "BAND" "") == pyLower "20m")))).find?
        (fun x => pyGet x "DXCC" "" == pyGet recA1 "DXCC" "") = some recA1 :=
  have h := (C6_confirmed_countries_spec sampleRecords "20m").2.2.1
    recA1 (by decide)
  have h5 := (C6_confirmed_countries_spec sampleRecords "20m").2.2.2.2
    recA1 (by decide)
  ⟨h.1, h.2.1, h.2.2.1, h.2.2.2 (by decide), h5⟩

/-- C7: `unconfirmed_no_qsl` builds the confirmed `(BAND, DXCC)` pair set
from the entire stored collection (no band restriction) and keeps exactly
the unconfirmed records whose pair is absent from it, always keeping
unconfirmed records with an empty `BAND` or `DXCC`; consequently, for any
band filter, it never returns a record sharing its non-empty
`(BAND, DXCC)` pair with a confirmed record. -/
theorem C7_unconfirmed_no_qsl_spec (records : List Record) (b : String)
    (r : Record) :
    (r ∈ filter_records records "unconfirmed_no_qsl" b →
      is_record_confirmed r = false ∧
        (pyGet r "BAND" "" ≠ "" → pyGet r "DXCC" "" ≠ "" →
          ¬ ∃ c ∈ records, is_record_confirmed c = true ∧
            pyGet c "BAND" "" = pyGet r "BAND" "" ∧
            pyGet c "DXCC" "" = pyGet r "DXCC" "")) ∧
    (r ∈ filter_records records "unconfirmed_no_qsl" "all" ↔
      (r ∈ records ∧ is_record_confirmed r = false ∧
        (pyGet r "BAND" "" = "" ∨ pyGet r "DXCC" "" = "" ∨
          ¬ ∃ c ∈ records, is_record_confirmed c = true ∧
            pyGet c "BAND" "" = pyGet r "BAND" "" ∧
            pyGet c "DXCC" "" = pyGet r "DXCC" ""))) := by
  have hpair : ∀ {x y : String}, x ≠ "" → y ≠ "" →
      ((x, y) ∈ confirmed_band_dxcc records ↔
        ∃ c ∈ records, is_record_confirmed c = true ∧
          pyGet c "BAND" "" = x ∧ pyGet c "DXCC" "" = y) := by
    intro x y hx hy
    rw [mem_confirmed_band_dxcc]
    constructor
    · rintro ⟨c, hc, h1, h2, h3, _, _⟩
      exact ⟨c, hc, h1, h2, h3⟩
    · rintro ⟨c, hc, h1, h2, h3⟩
      exact ⟨c, hc, h1, h2, h3, hx, hy⟩
  have hsplit : filter_records records "unconfirmed_no_qsl" b =
      if b = "all" then unconfirmed_no_qsl records
      else (unconfirmed_no_qsl records).filter
        (fun x => pyLower (pyGet x "BAND" "") == pyLower b) := rfl
  constructor
  · intro hr
    rw [hsplit] at hr
    have hr' : r ∈ unconfirmed_no_qsl records := by
      by_cases hb : b = "all"
      · rwa [if_pos hb] at hr
      · rw [if_neg hb] at hr
        exact (List.mem_filter.mp hr).1
    obtain ⟨_, hu, hd⟩ := mem_unconfirmed_no_qsl.mp hr'
    refine ⟨hu, ?_⟩
    intro hbne hdne hex
    rcases hd with h | h | h
    · exact hbne h
    · exact hdne h
    · exact h ((hpair hbne hdne).mpr hex)
  · have h0 : filter_records records "unconfirmed_no_qsl" "all" =
        unconfirmed_no_qsl records := rfl
    rw [h0, mem_unconfirmed_no_qsl]
    constructor
    · rintro ⟨hm, hu, hd⟩
      refine ⟨hm, hu, ?_⟩
      by_cases hbne : pyGet r "BAND" "" = ""
      · exact Or.inl hbne
      by_cases hdne : pyGet r "DXCC" "" = ""
      · exact Or.inr (Or.inl hdne)
      rcases hd with h | h | h
      · exact Or.inl h
      · exact Or.inr (Or.inl h)
      · exact Or.inr (Or.inr (fun hex => h ((hpair hbne hdne).mpr hex)))
    · rintro ⟨hm, hu, hd⟩
      refine ⟨hm, hu, ?_⟩
      by_cases hbne : pyGet r "BAND" "" = ""
      · exact Or.inl hbne
      by_cases hdne : pyGet r "DXCC" "" = ""
      · exact Or.inr (Or.inl hdne)
      rcases hd with h | h | h
      · exact absurd h hbne
      · exact absurd h hdne
      · exact Or.inr (Or.inr (fun hp => h ((hpair hbne hdne).mp hp)))

theorem C7_unconfirmed_no_qsl_spec_witness :
    is_record_confirmed recB2 = false ∧
      ¬ ∃ c ∈ sampleRecords, is_record_confirmed c = true ∧
        pyGet c "BAND" "" = pyGet recB2 "BAND" "" ∧
        pyGet c "DXCC" "" = pyGet recB2 "DXCC" "" :=
  have h := (C7_unconfirmed_no_qsl_spec sampleRecords "all" recB2).1 (by decide)
  ⟨h.1, h.2 (by decide) (by decide)⟩
